import Mathlib

set_option autoImplicit false

/-!
Shallow embedding of the churn-prediction pipeline of Sparkify_full.ipynb:
the Labeler (label_data), the Feature Builder (build_features) and the
Redundancy Reducer (drop_multicollinear_features).  An Event is one row of
the cleaned dataset; clean_data removes rows with null registration, so the
registration field is a plain integer.  Timestamps are epoch milliseconds
modelled as Int; real-valued feature columns are modelled as Rat.  The
external library call Correlation.corr is modelled as an oracle: a function
from pairs of column names to a rational correlation value, supplied to the
Redundancy Reducer as a parameter.
-/

/-- Event is one row of the cleaned Sparkify dataset (userId, ts, registration,
page, sessionId are the columns the modelled pipeline reads). -/
structure Event where
  userId : String
  ts : Int
  registration : Int
  page : String
  sessionId : Int
  deriving DecidableEq

/-- Rows of one user, as selected by Window.partitionBy userId or groupBy userId. -/
def usr (df : List Event) (u : String) : List Event :=
  df.filter (fun e => e.userId == u)

/-- Churn indicator of a single row: when(page == Cancellation Confirmation, 1).otherwise(0). -/
def churnInd (e : Event) : Nat :=
  if e.page = "Cancellation Confirmation" then 1 else 0

/-- Label of a user: max of the churn indicator over the unbounded user window
(label_data applies max(label).over(userWindow)). -/
def userLabel (df : List Event) (u : String) : Nat :=
  ((usr df u).map churnInd).foldr max 0

/-- label_data: every row is annotated with the per-user maximum of the churn
indicator over the whole history of its user. -/
def label_data (df : List Event) : List (Event × Nat) :=
  df.map (fun e => (e, userLabel df e.userId))

/-- Minimum ts of a list of rows (0 on the empty list, which the pipeline never
hits: the notebook collects min over a non-empty dataset). -/
def minTs : List Event → Int
  | [] => 0
  | e :: es => es.foldl (fun a x => min a x.ts) e.ts

/-- Maximum ts of a list of rows. -/
def maxTs : List Event → Int
  | [] => 0
  | e :: es => es.foldl (fun a x => max a x.ts) e.ts

/-- obs_start_default: df.select(min(ts)), the global minimum timestamp. -/
def obsStartDefault (df : List Event) : Int := minTs df

/-- obs_end_default: df.select(max(ts)), the global maximum timestamp. -/
def obsEndDefault (df : List Event) : Int := maxTs df

/-- first(ts) over the user window ordered by ts: the minimum ts of the user. -/
def userMinTs (df : List Event) (u : String) : Int := minTs (usr df u)

/-- last(ts) over the user window ordered by ts: the maximum ts of the user. -/
def userMaxTs (df : List Event) (u : String) : Int := maxTs (usr df u)

/-- Last row of the user window ordered by ts; ties on ts resolve to the later
list entry (the window order on equal ts keys is not specified by the engine). -/
def lastEvent : List Event → Option Event
  | [] => none
  | e :: es => some (es.foldl (fun a x => if a.ts ≤ x.ts then x else a) e)

/-- end_state: last(page) over the unbounded user window. -/
def end_state (df : List Event) (u : String) : String :=
  match lastEvent (usr df u) with
  | none => ""
  | some e => e.page

/-- obs_start column: when(registration > obs_start_default, first(ts).over(userWindow))
otherwise obs_start_default.  Note the code compares the registration of the row
but takes the first event timestamp, not the registration itself. -/
def obs_start (df : List Event) (e : Event) : Int :=
  if e.registration > obsStartDefault df then userMinTs df e.userId else obsStartDefault df

/-- obs_end column: when(end_state == Cancellation Confirmation, last(ts).over(userWindow))
otherwise obs_end_default. -/
def obs_end (df : List Event) (u : String) : Int :=
  if end_state df u = "Cancellation Confirmation" then userMaxTs df u else obsEndDefault df

/-- obsDays column: (obs_end - obs_start) / 1000 / 3600 / 24. -/
def obsDays (df : List Event) (e : Event) : ℚ :=
  ((obs_end df e.userId : ℚ) - (obs_start df e : ℚ)) / 1000 / 3600 / 24

/-- Per-user obsDays, as aggregated by first(obsDays) in the groupBy. -/
def userObsDays (df : List Event) (u : String) : ℚ :=
  match usr df u with
  | [] => 0
  | e :: _ => obsDays df e

/-- sum(when(p, 1).otherwise(0)) over the rows of one user: a raw action count. -/
def countWhen (df : List Event) (u : String) (p : Event → Bool) : Nat :=
  ((usr df u).map (fun e => if p e then 1 else 0)).sum

/-- last(column) under groupBy aggregation: the final row of the group in
encounter order. -/
def lastAgg (l : List Event) (f : Event → Int) : Int :=
  match l.getLast? with
  | none => 0
  | some e => f e

/-- registDuration: (last(ts) - last(registration)) / 1000 / 3600 / 24. -/
def registDuration (df : List Event) (u : String) : ℚ :=
  ((lastAgg (usr df u) Event.ts : ℚ) - (lastAgg (usr df u) Event.registration : ℚ)) / 1000 / 3600 / 24

/-- Distinct values of a list in order of first appearance (the keys of a
groupBy). -/
def distinct {α : Type} [BEq α] (l : List α) : List α :=
  l.foldl (fun acc x => if acc.contains x then acc else acc ++ [x]) []

/-- Distinct session ids of one user. -/
def userSessions (df : List Event) (u : String) : List Int :=
  distinct ((usr df u).map Event.sessionId)

/-- Rows of one session of one user. -/
def sessionEvents (df : List Event) (u : String) (s : Int) : List Event :=
  (usr df u).filter (fun e => e.sessionId == s)

/-- Duration of one session in hours: (max ts - min ts) / 1000 / 3600. -/
def sessionHours (df : List Event) (u : String) (s : Int) : ℚ :=
  ((maxTs (sessionEvents df u s) : ℚ) - (minTs (sessionEvents df u s) : ℚ)) / 1000 / 3600

/-- avgSessionDuration: the average of the session durations of one user. -/
def avgSessionDuration (df : List Event) (u : String) : ℚ :=
  ((userSessions df u).map (sessionHours df u)).sum / ((userSessions df u).length : ℚ)

/-- FeatureRow is the final emitted row of build_features: userId, obsDays and
the raw counts are dropped at the end, leaving the label, the two duration
features and the ten average-daily-rate features. -/
structure FeatureRow where
  churn : Nat
  registDuration : ℚ
  avgSessionDuration : ℚ
  avgDailySongs : ℚ
  avgDailyThumbsUp : ℚ
  avgDailyThumbsDown : ℚ
  avgDailyUpgrade : ℚ
  avgDailyDowngrade : ℚ
  avgDailyAddFriend : ℚ
  avgDailyAddPlaylist : ℚ
  avgDailyAdvert : ℚ
  avgDailyHelp : ℚ
  avgDailyError : ℚ
  deriving DecidableEq

/-- The feature row of one user: each avgDaily column is the corresponding raw
count divided by obsDays, exactly as the withColumn chain computes it. -/
def buildRow (df : List Event) (u : String) : FeatureRow where
  churn := userLabel df u
  registDuration := registDuration df u
  avgSessionDuration := avgSessionDuration df u
  avgDailySongs := (countWhen df u (fun e => e.page == "NextSong") : ℚ) / userObsDays df u
  avgDailyThumbsUp := (countWhen df u (fun e => e.page == "Thumbs Up") : ℚ) / userObsDays df u
  avgDailyThumbsDown := (countWhen df u (fun e => e.page == "Thumbs Down") : ℚ) / userObsDays df u
  avgDailyUpgrade := (countWhen df u (fun e => e.page == "Upgrade" || e.page == "Submit Upgrade") : ℚ) / userObsDays df u
  avgDailyDowngrade := (countWhen df u (fun e => e.page == "Downgrade" || e.page == "Submit Downgrade") : ℚ) / userObsDays df u
  avgDailyAddFriend := (countWhen df u (fun e => e.page == "Add Friend") : ℚ) / userObsDays df u
  avgDailyAddPlaylist := (countWhen df u (fun e => e.page == "Add to Playlist") : ℚ) / userObsDays df u
  avgDailyAdvert := (countWhen df u (fun e => e.page == "Roll Advert") : ℚ) / userObsDays df u
  avgDailyHelp := (countWhen df u (fun e => e.page == "Help") : ℚ) / userObsDays df u
  avgDailyError := (countWhen df u (fun e => e.page == "Error") : ℚ) / userObsDays df u

/-- Distinct user ids (the groupBy keys). -/
def distinctUsers (df : List Event) : List String :=
  distinct (df.map Event.userId)

/-- build_features: one feature row per distinct user. -/
def build_features (df : List Event) : List (String × FeatureRow) :=
  (distinctUsers df).map (fun u => (u, buildRow df u))

/-- Table is a feature table: an association list from column name to column
data.  The reducer consults the correlation oracle, never the data itself. -/
abbrev Table := List (String × List ℚ)

/-- Decidable equality of Except results, so that concrete runs of the
Redundancy Reducer can be evaluated by the kernel. -/
instance {ε α : Type} [DecidableEq ε] [DecidableEq α] : DecidableEq (Except ε α) := fun x y =>
  match x, y with
  | Except.ok a, Except.ok b =>
    if h : a = b then isTrue (by rw [h]) else isFalse (fun hh => h (Except.ok.injEq a b ▸ hh))
  | Except.error a, Except.error b =>
    if h : a = b then isTrue (by rw [h]) else isFalse (fun hh => h (Except.error.injEq a b ▸ hh))
  | Except.ok _, Except.error _ => isFalse (fun hh => Except.noConfusion hh)
  | Except.error _, Except.ok _ => isFalse (fun hh => Except.noConfusion hh)

/-- Column names of a table, in table order (user_df.columns). -/
def colNames (t : Table) : List String := t.map Prod.fst

/-- Absolute value on the rationals, written out so that it evaluates by
kernel reduction (np.abs on the correlation entries). -/
def ratAbs (q : ℚ) : ℚ := if q < 0 then -q else q

/-- Adjacency of the high-correlation graph.  The code forms
abs(corr) > threshold as a 0/1 matrix and subtracts the identity, then runs
scipy connected_components with directed = False, which symmetrises the
matrix, so two distinct columns are adjacent when either of the two oriented
entries exceeds the threshold in absolute value. -/
def adjacent (corr : String → String → ℚ) (thr : ℚ) (a b : String) : Bool :=
  a != b && (decide (thr < ratAbs (corr a b)) || decide (thr < ratAbs (corr b a)))

/-- One round of frontier expansion: add every pool column adjacent to the
current set. -/
def expandStep (adj : String → String → Bool) (pool : List String) (s : List String) : List String :=
  (s ++ pool.filter (fun c => s.any (fun x => adj x c))).dedup

/-- Iterated frontier expansion; pool.length rounds reach every column at any
graph distance from the seed, since a shortest path visits no column twice. -/
def reachFrom (adj : String → String → Bool) (pool : List String) : Nat → List String → List String
  | 0, s => s
  | n + 1, s => reachFrom adj pool n (expandStep adj pool s)

/-- Connected component of c inside pool, listed in pool order (the zip
comprehension in the code lists the members of a component in column order). -/
def componentIn (adj : String → String → Bool) (pool : List String) (c : String) : List String :=
  pool.filter (fun x => (reachFrom adj pool pool.length [c]).contains x)

/-- All connected components in order of first member: repeatedly take the
component of the first unassigned column.  The fuel equals the pool length;
every round assigns at least the head column, so the fuel never runs out. -/
def componentsGo (adj : String → String → Bool) : Nat → List String → List (List String)
  | 0, _ => []
  | _ + 1, [] => []
  | n + 1, c :: rest =>
    let g := componentIn adj (c :: rest) c
    g :: componentsGo adj n ((c :: rest).filter (fun x => !g.contains x))

/-- Connected components of the adjacency graph on the given columns. -/
def components (adj : String → String → Bool) (cols : List String) : List (List String) :=
  componentsGo adj cols.length cols

/-- Components of size at least 2: the groups of highly correlated features
(unique labels with unique_counts > 1). -/
def redundantGroups (corr : String → String → ℚ) (thr : ℚ) (cols : List String) : List (List String) :=
  (components (adjacent corr thr) cols).filter (fun g => decide (2 ≤ g.length))

/-- col_to_keep: corr_mat_pd.loc[group, label].idxmax(), the first member of
the group attaining the maximal signed correlation with the label column
(pandas idxmax takes the signed maximum and returns its first position). -/
def col_to_keep (corr : String → String → ℚ) (label : String) : List String → String
  | [] => ""
  | c :: cs => cs.foldl (fun best x => if corr best label < corr x label then x else best) c

/-- cols_to_drop: every member of every redundant group except the kept one.
This is the value the loop accumulates when it completes without an error;
dropLoop below models the loop itself, including its reachable KeyError. -/
def cols_to_drop (corr : String → String → ℚ) (label : String) (groups : List (List String)) : List String :=
  (groups.map (fun g => g.filter (fun c => c != col_to_keep corr label g))).flatten

/-- The for-loop over the redundant groups.  The remaining argument is the set
of row and column names still present in corr_mat_pd: the in-loop inplace
corr_mat_pd.drop removes the names marked for removal, so when an earlier
group removes the label column (or, hypothetically, a group member), the
loc[group, label].idxmax() of a later group raises KeyError.  The correlation
values themselves are unchanged by the drop, so the kept feature of a group
that is looked up successfully is still the signed idxmax of the original
matrix. -/
def dropLoop (corr : String → String → ℚ) (label : String) :
    List (List String) → List String → Except String (List String)
  | [], _ => Except.ok []
  | g :: gs, remaining =>
    if g.all (fun c => remaining.contains c) && remaining.contains label then
      match dropLoop corr label gs
          (remaining.filter
            (fun c => !(g.filter (fun x => x != col_to_keep corr label g)).contains c)) with
      | Except.error e => Except.error e
      | Except.ok rest =>
        Except.ok (g.filter (fun x => x != col_to_keep corr label g) ++ rest)
    else
      Except.error ("KeyError: " ++ label)

/-- drop_multicollinear_features.  When no group of size at least 2 exists,
the branch assigning cols_to_drop is skipped and the final
user_df.drop(*cols_to_drop) raises UnboundLocalError; this is modelled as an
error result.  Otherwise the loop runs over the groups: it can raise KeyError
when an earlier group dropped the label column, and when it completes, the
marked columns are dropped from the table by name. -/
def drop_multicollinear_features (user_df : Table) (corr : String → String → ℚ)
    (label : String) (threshold : ℚ) : Except String Table :=
  let groups := redundantGroups corr threshold (colNames user_df)
  if groups.isEmpty then
    Except.error "UnboundLocalError: local variable cols_to_drop referenced before assignment"
  else
    match dropLoop corr label groups (colNames user_df) with
    | Except.error e => Except.error e
    | Except.ok dropped => Except.ok (user_df.filter (fun p => !dropped.contains p.1))


/-! ### Concrete data used by witnesses and counterexamples -/

/-- Threshold 0.85, the default of drop_multicollinear_features. -/
def thr85 : Rat := mkRat 17 20

/-- Toy labeled history: user u1 cancels, user u2 does not. -/
def dfLab : List Event :=
  [⟨"u1", 5, 1, "NextSong", 1⟩, ⟨"u1", 9, 1, "Cancellation Confirmation", 1⟩,
   ⟨"u2", 3, 1, "NextSong", 2⟩]

/-- A labeled row of dfLab. -/
def pLab : Event × Nat := (⟨"u1", 5, 1, "NextSong", 1⟩, 1)

/-- Another labeled row of dfLab with the same user. -/
def qLab : Event × Nat := (⟨"u1", 9, 1, "Cancellation Confirmation", 1⟩, 1)

/-- Dataset of the C2 counterexample: the registration of user u (5) exceeds
the global minimum timestamp (0), and the first event of u is at 10. -/
def dfC2 : List Event :=
  [⟨"v", 0, 0, "NextSong", 1⟩, ⟨"u", 10, 5, "NextSong", 2⟩, ⟨"u", 20, 5, "NextSong", 2⟩]

/-- The first event of user u in dfC2. -/
def eC2 : Event := ⟨"u", 10, 5, "NextSong", 2⟩

/-- Dataset with a churned user u and a retained user w. -/
def dfC6 : List Event :=
  [⟨"u", 0, 0, "NextSong", 1⟩, ⟨"u", 100, 0, "Cancellation Confirmation", 1⟩,
   ⟨"w", 50, 0, "NextSong", 3⟩]

/-- The final event of user u in dfC6. -/
def eC6 : Event := ⟨"u", 100, 0, "Cancellation Confirmation", 1⟩

/-- Single-user dataset spanning exactly one day (86400000 ms). -/
def dfC7 : List Event :=
  [⟨"u", 0, 0, "NextSong", 1⟩, ⟨"u", 86400000, 0, "Cancellation Confirmation", 1⟩]

/-- Correlation oracle of the C3 counterexample: corr(A,B) = 0.9,
corr(A,Churn) = -0.2, corr(B,Churn) = 0.1.  This matrix is positive
semidefinite, hence realisable by actual data. -/
def corrC3 (a b : String) : Rat :=
  if a = b then 1
  else if (a = "A" ∧ b = "B") ∨ (a = "B" ∧ b = "A") then mkRat 9 10
  else if (a = "A" ∧ b = "Churn") ∨ (a = "Churn" ∧ b = "A") then mkRat (-1) 5
  else mkRat 1 10

/-- Feature table of the C3 counterexample. -/
def tableC3 : Table := [("A", [0]), ("B", [0]), ("Churn", [0])]

/-- Correlation oracle with one redundant pair: corr(a,b) = 0.9,
corr(a,Churn) = 0.3, corr(b,Churn) = 0.2. -/
def corrC4 (a b : String) : Rat :=
  if a = b then 1
  else if (a = "a" ∧ b = "b") ∨ (a = "b" ∧ b = "a") then mkRat 9 10
  else if (a = "a" ∧ b = "Churn") ∨ (a = "Churn" ∧ b = "a") then mkRat 3 10
  else mkRat 1 5

/-- Feature table with the redundant pair a, b. -/
def tableC4 : Table := [("a", [0]), ("b", [0]), ("Churn", [1])]

/-- The output of the first reducer run on tableC4: b is dropped. -/
def outC4 : Table := [("a", [0]), ("Churn", [1])]

/-- Correlation oracle of a table whose feature column X duplicates the label
column, so every pairwise correlation is exactly 1. -/
def corrDup (_ _ : String) : Rat := 1

/-- Feature table whose column X carries the same data as the label column. -/
def tableDup : Table := [("X", [0, 1]), ("Churn", [0, 1])]

/-- Correlation oracle with no high correlation anywhere off the diagonal. -/
def corrLow (a b : String) : Rat := if a = b then 1 else mkRat 1 10

/-- Feature table with no redundant pair under corrLow. -/
def tableLow : Table := [("f", [0]), ("Churn", [1])]

/-- Correlation oracle with two redundant groups: X duplicates the label
(corr 1) and C, D form a second highly correlated pair (corr 0.9). -/
def corrKey (a b : String) : Rat :=
  if a = b then 1
  else if (a = "X" ∧ b = "Churn") ∨ (a = "Churn" ∧ b = "X") then 1
  else if (a = "C" ∧ b = "D") ∨ (a = "D" ∧ b = "C") then mkRat 9 10
  else 0

/-- Feature table on which the first redundant group removes the label column
and the second group then raises KeyError looking it up. -/
def tableKey : Table := [("X", [0, 1]), ("Churn", [0, 1]), ("C", [0]), ("D", [0])]

/-! ### Helper lemmas on the Labeler and the time aggregates -/

lemma mem_usr {df : List Event} {u : String} {e : Event} :
    e ∈ usr df u ↔ e ∈ df ∧ e.userId = u := by
  simp [usr]

lemma churnInd_cases (e : Event) : churnInd e = 0 ∨ churnInd e = 1 := by
  unfold churnInd
  split <;> simp

lemma labelList_cases (l : List Event) :
    (l.map churnInd).foldr max 0 = 0 ∨ (l.map churnInd).foldr max 0 = 1 := by
  induction l with
  | nil => exact Or.inl rfl
  | cons e es ih =>
    simp only [List.map_cons, List.foldr_cons]
    rcases churnInd_cases e with hc | hc <;> rcases ih with h | h <;> rw [hc, h] <;> simp

lemma labelList_eq_one_iff (l : List Event) :
    (l.map churnInd).foldr max 0 = 1 ↔ ∃ e ∈ l, e.page = "Cancellation Confirmation" := by
  induction l with
  | nil => simp
  | cons e es ih =>
    simp only [List.map_cons, List.foldr_cons, List.mem_cons]
    by_cases hp : e.page = "Cancellation Confirmation"
    · have h1 : churnInd e = 1 := by simp [churnInd, hp]
      constructor
      · intro _
        exact ⟨e, Or.inl rfl, hp⟩
      · intro _
        rcases labelList_cases es with h0 | h0 <;> rw [h1, h0] <;> simp
    · have h0 : churnInd e = 0 := by simp [churnInd, hp]
      rw [h0]
      have hmax : max 0 ((es.map churnInd).foldr max 0) = (es.map churnInd).foldr max 0 := by
        omega
      rw [hmax, ih]
      constructor
      · rintro ⟨x, hx, hxp⟩
        exact ⟨x, Or.inr hx, hxp⟩
      · rintro ⟨x, hx | hx, hxp⟩
        · exact absurd (hx ▸ hxp) hp
        · exact ⟨x, hx, hxp⟩

lemma userLabel_cases (df : List Event) (u : String) :
    userLabel df u = 0 ∨ userLabel df u = 1 :=
  labelList_cases (usr df u)

lemma userLabel_eq_one_iff (df : List Event) (u : String) :
    userLabel df u = 1 ↔ ∃ e ∈ df, e.userId = u ∧ e.page = "Cancellation Confirmation" := by
  unfold userLabel
  rw [labelList_eq_one_iff]
  constructor
  · rintro ⟨e, he, hp⟩
    rcases mem_usr.mp he with ⟨hdf, hu⟩
    exact ⟨e, hdf, hu, hp⟩
  · rintro ⟨e, hdf, hu, hp⟩
    exact ⟨e, mem_usr.mpr ⟨hdf, hu⟩, hp⟩

lemma userLabel_eq_zero_iff (df : List Event) (u : String) :
    userLabel df u = 0 ↔ ∀ e ∈ df, e.userId = u → e.page ≠ "Cancellation Confirmation" := by
  constructor
  · intro h e hdf hu hp
    have h1 : userLabel df u = 1 := (userLabel_eq_one_iff df u).mpr ⟨e, hdf, hu, hp⟩
    omega
  · intro h
    rcases userLabel_cases df u with h0 | h1
    · exact h0
    · exfalso
      rcases (userLabel_eq_one_iff df u).mp h1 with ⟨e, hdf, hu, hp⟩
      exact h e hdf hu hp

lemma foldl_min_le_init (es : List Event) (a : Int) :
    es.foldl (fun b x => min b x.ts) a ≤ a := by
  induction es generalizing a with
  | nil => exact le_refl a
  | cons e es ih => exact le_trans (ih (min a e.ts)) (min_le_left a e.ts)

lemma foldl_min_le_mem (es : List Event) (a : Int) (e : Event) (he : e ∈ es) :
    es.foldl (fun b x => min b x.ts) a ≤ e.ts := by
  induction es generalizing a with
  | nil => cases he
  | cons x xs ih =>
    rcases List.mem_cons.mp he with rfl | h
    · exact le_trans (foldl_min_le_init xs (min a e.ts)) (min_le_right a e.ts)
    · exact ih (min a x.ts) h

lemma foldl_min_attained (es : List Event) (a : Int) :
    es.foldl (fun b x => min b x.ts) a = a ∨
      ∃ e ∈ es, es.foldl (fun b x => min b x.ts) a = e.ts := by
  induction es generalizing a with
  | nil => exact Or.inl rfl
  | cons x xs ih =>
    simp only [List.foldl_cons]
    rcases le_total a x.ts with hle | hle
    · rw [min_eq_left hle]
      rcases ih a with h | ⟨e, he, hee⟩
      · exact Or.inl h
      · exact Or.inr ⟨e, List.mem_cons_of_mem x he, hee⟩
    · rw [min_eq_right hle]
      rcases ih x.ts with h | ⟨e, he, hee⟩
      · exact Or.inr ⟨x, List.mem_cons_self x xs, h⟩
      · exact Or.inr ⟨e, List.mem_cons_of_mem x he, hee⟩

lemma minTs_le {l : List Event} {e : Event} (he : e ∈ l) : minTs l ≤ e.ts := by
  cases l with
  | nil => cases he
  | cons x xs =>
    unfold minTs
    rcases List.mem_cons.mp he with rfl | h
    · exact foldl_min_le_init xs e.ts
    · exact foldl_min_le_mem xs x.ts e h

lemma minTs_attained {l : List Event} (h : l ≠ []) : ∃ e ∈ l, minTs l = e.ts := by
  cases l with
  | nil => exact absurd rfl h
  | cons x xs =>
    unfold minTs
    rcases foldl_min_attained xs x.ts with h0 | ⟨e, he, hee⟩
    · exact ⟨x, List.mem_cons_self x xs, h0⟩
    · exact ⟨e, List.mem_cons_of_mem x he, hee⟩

lemma foldl_max_ge_init (es : List Event) (a : Int) :
    a ≤ es.foldl (fun b x => max b x.ts) a := by
  induction es generalizing a with
  | nil => exact le_refl a
  | cons e es ih => exact le_trans (le_max_left a e.ts) (ih (max a e.ts))

lemma foldl_max_ge_mem (es : List Event) (a : Int) (e : Event) (he : e ∈ es) :
    e.ts ≤ es.foldl (fun b x => max b x.ts) a := by
  induction es generalizing a with
  | nil => cases he
  | cons x xs ih =>
    rcases List.mem_cons.mp he with rfl | h
    · exact le_trans (le_max_right a e.ts) (foldl_max_ge_init xs (max a e.ts))
    · exact ih (max a x.ts) h

lemma foldl_max_attained (es : List Event) (a : Int) :
    es.foldl (fun b x => max b x.ts) a = a ∨
      ∃ e ∈ es, es.foldl (fun b x => max b x.ts) a = e.ts := by
  induction es generalizing a with
  | nil => exact Or.inl rfl
  | cons x xs ih =>
    simp only [List.foldl_cons]
    rcases le_total a x.ts with hle | hle
    · rw [max_eq_right hle]
      rcases ih x.ts with h | ⟨e, he, hee⟩
      · exact Or.inr ⟨x, List.mem_cons_self x xs, h⟩
      · exact Or.inr ⟨e, List.mem_cons_of_mem x he, hee⟩
    · rw [max_eq_left hle]
      rcases ih a with h | ⟨e, he, hee⟩
      · exact Or.inl h
      · exact Or.inr ⟨e, List.mem_cons_of_mem x he, hee⟩

lemma le_maxTs {l : List Event} {e : Event} (he : e ∈ l) : e.ts ≤ maxTs l := by
  cases l with
  | nil => cases he
  | cons x xs =>
    unfold maxTs
    rcases List.mem_cons.mp he with rfl | h
    · exact foldl_max_ge_init xs e.ts
    · exact foldl_max_ge_mem xs x.ts e h

lemma maxTs_attained {l : List Event} (h : l ≠ []) : ∃ e ∈ l, maxTs l = e.ts := by
  cases l with
  | nil => exact absurd rfl h
  | cons x xs =>
    unfold maxTs
    rcases foldl_max_attained xs x.ts with h0 | ⟨e, he, hee⟩
    · exact ⟨x, List.mem_cons_self x xs, h0⟩
    · exact ⟨e, List.mem_cons_of_mem x he, hee⟩

lemma foldl_pick_init_le (es : List Event) (a : Event) :
    a.ts ≤ (es.foldl (fun b x => if b.ts ≤ x.ts then x else b) a).ts := by
  induction es generalizing a with
  | nil => exact le_refl a.ts
  | cons x xs ih =>
    simp only [List.foldl_cons]
    by_cases h : a.ts ≤ x.ts
    · rw [if_pos h]
      exact le_trans h (ih x)
    · rw [if_neg h]
      exact ih a

lemma foldl_pick_mem (es : List Event) (a : Event) :
    es.foldl (fun b x => if b.ts ≤ x.ts then x else b) a = a ∨
      es.foldl (fun b x => if b.ts ≤ x.ts then x else b) a ∈ es := by
  induction es generalizing a with
  | nil => exact Or.inl rfl
  | cons x xs ih =>
    simp only [List.foldl_cons]
    by_cases h : a.ts ≤ x.ts
    · rw [if_pos h]
      rcases ih x with h0 | h0
      · exact Or.inr (by rw [h0]; exact List.mem_cons_self x xs)
      · exact Or.inr (List.mem_cons_of_mem x h0)
    · rw [if_neg h]
      rcases ih a with h0 | h0
      · exact Or.inl h0
      · exact Or.inr (List.mem_cons_of_mem x h0)

lemma foldl_pick_ge_mem (es : List Event) (a : Event) (e : Event) (he : e ∈ es) :
    e.ts ≤ (es.foldl (fun b x => if b.ts ≤ x.ts then x else b) a).ts := by
  induction es generalizing a with
  | nil => cases he
  | cons x xs ih =>
    simp only [List.foldl_cons]
    rcases List.mem_cons.mp he with rfl | h
    · by_cases hax : a.ts ≤ e.ts
      · rw [if_pos hax]
        exact foldl_pick_init_le xs e
      · rw [if_neg hax]
        exact le_trans (le_of_not_le hax) (foldl_pick_init_le xs a)
    · by_cases hax : a.ts ≤ x.ts
      · rw [if_pos hax]
        exact ih x h
      · rw [if_neg hax]
        exact ih a h

lemma lastEvent_mem {l : List Event} {e : Event} (h : lastEvent l = some e) : e ∈ l := by
  cases l with
  | nil => cases h
  | cons x xs =>
    unfold lastEvent at h
    injection h with h
    rcases foldl_pick_mem xs x with h0 | h0
    · rw [← h, h0]
      exact List.mem_cons_self x xs
    · rw [← h]
      exact List.mem_cons_of_mem x h0

lemma lastEvent_ts_ge {l : List Event} {e : Event} (h : lastEvent l = some e)
    {x : Event} (hx : x ∈ l) : x.ts ≤ e.ts := by
  cases l with
  | nil => cases hx
  | cons y ys =>
    unfold lastEvent at h
    injection h with h
    rw [← h]
    rcases List.mem_cons.mp hx with rfl | hmem
    · exact foldl_pick_init_le ys x
    · exact foldl_pick_ge_mem ys y x hmem

lemma lastEvent_isSome {l : List Event} (h : l ≠ []) : ∃ e, lastEvent l = some e := by
  cases l with
  | nil => exact absurd rfl h
  | cons x xs => exact ⟨_, rfl⟩

lemma lastEvent_ts_eq_maxTs {l : List Event} {e : Event} (h : lastEvent l = some e) :
    e.ts = maxTs l := by
  have h1 : e.ts ≤ maxTs l := le_maxTs (lastEvent_mem h)
  have h2 : maxTs l ≤ e.ts := by
    rcases maxTs_attained (l := l) (by rintro rfl; cases h) with ⟨x, hx, hxx⟩
    rw [hxx]
    exact lastEvent_ts_ge h hx
  exact le_antisymm h1 h2

lemma sum_ite_eq_length_filter (l : List Event) (p : Event → Bool) :
    (l.map (fun e => if p e then 1 else 0)).sum = (l.filter p).length := by
  induction l with
  | nil => rfl
  | cons e es ih =>
    by_cases h : p e = true
    · simp [List.filter_cons, h, ih]
      omega
    · simp [List.filter_cons, h, ih]

lemma countWhen_eq_length_filter (df : List Event) (u : String) (p : Event → Bool) :
    countWhen df u p = ((usr df u).filter p).length :=
  sum_ite_eq_length_filter (usr df u) p

/-! ### Helper lemmas on the Redundancy Reducer -/

lemma componentsGo_cons_eq (adj : String → String → Bool) (n : Nat) (c : String)
    (rest : List String) :
    componentsGo adj (n + 1) (c :: rest) =
      componentIn adj (c :: rest) c ::
        componentsGo adj n
          ((c :: rest).filter (fun x => !(componentIn adj (c :: rest) c).contains x)) := rfl

lemma componentIn_sub {adj : String → String → Bool} {pool : List String} {c x : String}
    (h : x ∈ componentIn adj pool c) : x ∈ pool :=
  (List.mem_filter.mp h).1

lemma componentsGo_sub (adj : String → String → Bool) :
    ∀ (n : Nat) (pool g : List String), g ∈ componentsGo adj n pool → ∀ x ∈ g, x ∈ pool := by
  intro n
  induction n with
  | zero =>
    intro pool g hg
    cases hg
  | succ n ih =>
    intro pool g hg x hx
    cases pool with
    | nil => cases hg
    | cons c rest =>
      rw [componentsGo_cons_eq] at hg
      rcases List.mem_cons.mp hg with rfl | hg
      · exact componentIn_sub hx
      · exact (List.mem_filter.mp (ih _ g hg x hx)).1

lemma componentsGo_disjoint (adj : String → String → Bool) :
    ∀ (n : Nat) (pool : List String),
      List.Pairwise (fun g h => ∀ x ∈ g, x ∉ h) (componentsGo adj n pool) := by
  intro n
  induction n with
  | zero =>
    intro pool
    exact List.Pairwise.nil
  | succ n ih =>
    intro pool
    cases pool with
    | nil => exact List.Pairwise.nil
    | cons c rest =>
      rw [componentsGo_cons_eq]
      refine List.Pairwise.cons ?_ (ih _)
      intro h hh x hx hxh
      have hsub := componentsGo_sub adj n _ h hh x hxh
      have hfil := (List.mem_filter.mp hsub).2
      have hnot : x ∉ componentIn adj (c :: rest) c := by simpa using hfil
      exact hnot hx

lemma components_sub {adj : String → String → Bool} {cols g : List String}
    (hg : g ∈ components adj cols) : ∀ x ∈ g, x ∈ cols :=
  componentsGo_sub adj cols.length cols g hg

lemma components_disjoint (adj : String → String → Bool) (cols : List String) :
    List.Pairwise (fun g h => ∀ x ∈ g, x ∉ h) (components adj cols) :=
  componentsGo_disjoint adj cols.length cols

lemma redundantGroups_sub {corr : String → String → ℚ} {thr : ℚ} {cols g : List String}
    (hg : g ∈ redundantGroups corr thr cols) : ∀ x ∈ g, x ∈ cols :=
  components_sub (List.mem_filter.mp hg).1

lemma redundantGroups_length {corr : String → String → ℚ} {thr : ℚ} {cols g : List String}
    (hg : g ∈ redundantGroups corr thr cols) : 2 ≤ g.length := by
  have h := (List.mem_filter.mp hg).2
  simpa using h

lemma redundantGroups_disjoint (corr : String → String → ℚ) (thr : ℚ) (cols : List String) :
    List.Pairwise (fun g h => ∀ x ∈ g, x ∉ h) (redundantGroups corr thr cols) :=
  (components_disjoint (adjacent corr thr) cols).filter _

lemma foldl_keep_mem (corr : String → String → ℚ) (label : String) (cs : List String)
    (c : String) :
    cs.foldl (fun best x => if corr best label < corr x label then x else best) c ∈ c :: cs := by
  induction cs generalizing c with
  | nil => exact List.mem_cons_self c []
  | cons y ys ih =>
    simp only [List.foldl_cons]
    by_cases h : corr c label < corr y label
    · rw [if_pos h]
      exact List.mem_cons_of_mem c (ih y)
    · rw [if_neg h]
      rcases List.mem_cons.mp (ih c) with h0 | h0
      · rw [h0]
        exact List.mem_cons_self c _
      · exact List.mem_cons_of_mem c (List.mem_cons_of_mem y h0)

lemma foldl_keep_ge_init (corr : String → String → ℚ) (label : String) (cs : List String)
    (c : String) :
    corr c label ≤
      corr (cs.foldl (fun best x => if corr best label < corr x label then x else best) c) label := by
  induction cs generalizing c with
  | nil => exact le_refl _
  | cons y ys ih =>
    simp only [List.foldl_cons]
    by_cases h : corr c label < corr y label
    · rw [if_pos h]
      exact le_trans (le_of_lt h) (ih y)
    · rw [if_neg h]
      exact ih c

lemma foldl_keep_ge_mem (corr : String → String → ℚ) (label : String) (cs : List String)
    (c x : String) (hx : x ∈ cs) :
    corr x label ≤
      corr (cs.foldl (fun best y => if corr best label < corr y label then y else best) c) label := by
  induction cs generalizing c with
  | nil => cases hx
  | cons y ys ih =>
    simp only [List.foldl_cons]
    rcases List.mem_cons.mp hx with rfl | h
    · by_cases hc : corr c label < corr x label
      · rw [if_pos hc]
        exact foldl_keep_ge_init corr label ys x
      · rw [if_neg hc]
        exact le_trans (le_of_not_lt hc) (foldl_keep_ge_init corr label ys c)
    · by_cases hc : corr c label < corr y label
      · rw [if_pos hc]
        exact ih y h
      · rw [if_neg hc]
        exact ih c h

lemma col_to_keep_mem {corr : String → String → ℚ} {label : String} {g : List String}
    (h : g ≠ []) : col_to_keep corr label g ∈ g := by
  cases g with
  | nil => exact absurd rfl h
  | cons c cs => exact foldl_keep_mem corr label cs c

lemma col_to_keep_ge {corr : String → String → ℚ} {label : String} {g : List String}
    {x : String} (hx : x ∈ g) :
    corr x label ≤ corr (col_to_keep corr label g) label := by
  cases g with
  | nil => cases hx
  | cons c cs =>
    unfold col_to_keep
    rcases List.mem_cons.mp hx with rfl | h
    · exact foldl_keep_ge_init corr label cs x
    · exact foldl_keep_ge_mem corr label cs c x h

lemma mem_cols_to_drop {corr : String → String → ℚ} {label : String}
    {groups : List (List String)} {x : String} :
    x ∈ cols_to_drop corr label groups ↔
      ∃ g ∈ groups, x ∈ g ∧ x ≠ col_to_keep corr label g := by
  unfold cols_to_drop
  simp [List.mem_flatten, List.mem_filter]

lemma cols_to_drop_cons (corr : String → String → ℚ) (label : String) (g : List String)
    (gs : List (List String)) :
    cols_to_drop corr label (g :: gs) =
      g.filter (fun c => c != col_to_keep corr label g) ++ cols_to_drop corr label gs := rfl

lemma keep_not_in_drops (corr : String → String → ℚ) (label : String) :
    ∀ (groups : List (List String)) (g : List String),
      List.Pairwise (fun a b => ∀ x ∈ a, x ∉ b) groups → g ∈ groups →
      col_to_keep corr label g ∈ g →
      col_to_keep corr label g ∉ cols_to_drop corr label groups := by
  intro groups
  induction groups with
  | nil =>
    intro g _ hg
    cases hg
  | cons h t ih =>
    intro g hpw hg hk
    rw [cols_to_drop_cons]
    intro hmem
    rcases List.mem_append.mp hmem with hm | hm
    · rcases List.mem_filter.mp hm with ⟨hmh, hne⟩
      rcases List.mem_cons.mp hg with rfl | hgt
      · simp at hne
      · have hdis := (List.pairwise_cons.mp hpw).1 g hgt
        exact hdis _ hmh hk
    · rcases List.mem_cons.mp hg with rfl | hgt
      · rcases mem_cols_to_drop.mp hm with ⟨g2, hg2, hxg2, _⟩
        have hdis := (List.pairwise_cons.mp hpw).1 g2 hg2
        exact hdis _ hk hxg2
      · exact ih g (List.pairwise_cons.mp hpw).2 hgt hk hm

lemma drop_eq_error {t : Table} {corr : String → String → ℚ} {label : String} {thr : ℚ}
    (h : redundantGroups corr thr (colNames t) = []) :
    drop_multicollinear_features t corr label thr =
      Except.error "UnboundLocalError: local variable cols_to_drop referenced before assignment" := by
  simp [drop_multicollinear_features, h]

lemma dropLoop_ok_result (corr : String → String → ℚ) (label : String) :
    ∀ (groups : List (List String)) (remaining l : List String),
      dropLoop corr label groups remaining = Except.ok l →
      l = cols_to_drop corr label groups := by
  intro groups
  induction groups with
  | nil =>
    intro remaining l h
    injection h with h
    exact h.symm
  | cons g gs ih =>
    intro remaining l h
    unfold dropLoop at h
    by_cases hcond : (g.all (fun c => remaining.contains c) && remaining.contains label) = true
    · rw [if_pos hcond] at h
      cases hrec : dropLoop corr label gs
          (remaining.filter
            (fun c => !(g.filter (fun x => x != col_to_keep corr label g)).contains c)) with
      | error e =>
        rw [hrec] at h
        cases h
      | ok rest =>
        rw [hrec] at h
        injection h with h
        rw [← h, cols_to_drop_cons, ih _ rest hrec]
    · rw [if_neg hcond] at h
      cases h

lemma drop_ok_elim {t : Table} {corr : String → String → ℚ} {label : String} {thr : ℚ}
    {out : Table}
    (hok : drop_multicollinear_features t corr label thr = Except.ok out) :
    redundantGroups corr thr (colNames t) ≠ [] ∧
      out = t.filter (fun p =>
        !(cols_to_drop corr label (redundantGroups corr thr (colNames t))).contains p.1) := by
  simp only [drop_multicollinear_features] at hok
  by_cases hg : (redundantGroups corr thr (colNames t)).isEmpty = true
  · rw [if_pos hg] at hok
    cases hok
  · rw [if_neg hg] at hok
    cases hrec : dropLoop corr label (redundantGroups corr thr (colNames t)) (colNames t) with
    | error e =>
      rw [hrec] at hok
      cases hok
    | ok dropped =>
      rw [hrec] at hok
      injection hok with hok
      refine ⟨?_, ?_⟩
      · intro h0
        rw [h0] at hg
        exact hg rfl
      · rw [← hok, dropLoop_ok_result corr label _ _ dropped hrec]

lemma mem_out_of_not_dropped {t : Table} {corr : String → String → ℚ} {label : String}
    {thr : ℚ} {c : String} {d : List ℚ} (hmem : (c, d) ∈ t)
    (hnd : c ∉ cols_to_drop corr label (redundantGroups corr thr (colNames t)))
    {out : Table} (hok : drop_multicollinear_features t corr label thr = Except.ok out) :
    (c, d) ∈ out := by
  obtain ⟨-, hout⟩ := drop_ok_elim hok
  rw [hout]
  refine List.mem_filter.mpr ⟨hmem, ?_⟩
  simpa using hnd

lemma not_mem_out_of_dropped {t : Table} {corr : String → String → ℚ} {label : String}
    {thr : ℚ} {c : String}
    (hd : c ∈ cols_to_drop corr label (redundantGroups corr thr (colNames t)))
    {out : Table} (hok : drop_multicollinear_features t corr label thr = Except.ok out) :
    c ∉ colNames out := by
  obtain ⟨-, hout⟩ := drop_ok_elim hok
  rw [hout]
  intro hmem
  rcases List.mem_map.mp hmem with ⟨p, hp, hpc⟩
  have hfil := (List.mem_filter.mp hp).2
  rw [hpc] at hfil
  have hnd : c ∉ cols_to_drop corr label (redundantGroups corr thr (colNames t)) := by
    simpa using hfil
  exact hnd hd

lemma exists_entry_of_mem_colNames {t : Table} {c : String} (h : c ∈ colNames t) :
    ∃ d, (c, d) ∈ t := by
  rcases List.mem_map.mp h with ⟨p, hp, hpc⟩
  exact ⟨p.2, by rw [← hpc]; simpa using hp⟩

lemma mem_colNames_of_mem {t : Table} {c : String} {d : List ℚ} (h : (c, d) ∈ t) :
    c ∈ colNames t :=
  List.mem_map.mpr ⟨(c, d), h, rfl⟩

/-! ### Claim theorems -/

/-- C1: the Labeler assigns a row label 1 exactly when some event of the same
user has the terminal action Cancellation Confirmation, and label 0 exactly
when the user has no such event anywhere in its history. -/
theorem C1_label_iff (df : List Event) (p : Event × Nat) (hp : p ∈ label_data df) :
    (p.2 = 1 ↔ ∃ e ∈ df, e.userId = p.1.userId ∧ e.page = "Cancellation Confirmation") ∧
    (p.2 = 0 ↔ ∀ e ∈ df, e.userId = p.1.userId → e.page ≠ "Cancellation Confirmation") := by
  rcases List.mem_map.mp hp with ⟨a, _, hpa⟩
  rw [← hpa]
  exact ⟨userLabel_eq_one_iff df a.userId, userLabel_eq_zero_iff df a.userId⟩

/-- Witness for C1 on the concrete history dfLab. -/
theorem C1_label_iff_witness :
    pLab ∈ label_data dfLab ∧
    ((pLab.2 = 1 ↔ ∃ e ∈ dfLab, e.userId = pLab.1.userId ∧ e.page = "Cancellation Confirmation") ∧
     (pLab.2 = 0 ↔ ∀ e ∈ dfLab, e.userId = pLab.1.userId → e.page ≠ "Cancellation Confirmation")) :=
  ⟨by decide, C1_label_iff dfLab pLab (by decide)⟩

/-- C10: in the Labeler output, the label is identical on every pair of rows
belonging to the same user. -/
theorem C10_label_broadcast (df : List Event) (p q : Event × Nat)
    (hp : p ∈ label_data df) (hq : q ∈ label_data df)
    (hu : p.1.userId = q.1.userId) : p.2 = q.2 := by
  rcases List.mem_map.mp hp with ⟨a, _, hpa⟩
  rcases List.mem_map.mp hq with ⟨b, _, hqb⟩
  rw [← hpa, ← hqb]
  rw [← hpa, ← hqb] at hu
  exact congrArg (userLabel df) hu

/-- Witness for C10 on the concrete history dfLab. -/
theorem C10_label_broadcast_witness :
    pLab ∈ label_data dfLab ∧ qLab ∈ label_data dfLab ∧ pLab.1.userId = qLab.1.userId ∧
      pLab.2 = qLab.2 :=
  ⟨by decide, by decide, by decide,
    C10_label_broadcast dfLab pLab qLab (by decide) (by decide) (by decide)⟩

/-- C2 counterexample: for the row eC2 of dfC2 the registration (5) exceeds
the global minimum timestamp (0), yet obs_start is 10 (the first event
timestamp of the user), not the registration timestamp 5. -/
theorem C2_counterexample :
    eC2 ∈ dfC2 ∧ eC2.registration > obsStartDefault dfC2 ∧
      obs_start dfC2 eC2 = 10 ∧ obs_start dfC2 eC2 ≠ eC2.registration := by
  decide

/-- C2 amended: when the registration of the row exceeds the global minimum
timestamp, obs_start is the first event timestamp of the user (an attained
lower bound of the timestamps of the user); otherwise it is the global
minimum timestamp of the dataset. -/
theorem C2_amended_obs_start (df : List Event) (e : Event) (he : e ∈ df) :
    (e.registration > obsStartDefault df →
      obs_start df e ∈ (usr df e.userId).map Event.ts ∧
        ∀ x ∈ df, x.userId = e.userId → obs_start df e ≤ x.ts) ∧
    (¬ e.registration > obsStartDefault df →
      obs_start df e = obsStartDefault df ∧ ∀ x ∈ df, obs_start df e ≤ x.ts) := by
  constructor
  · intro h
    unfold obs_start
    rw [if_pos h]
    constructor
    · have hne : usr df e.userId ≠ [] := by
        intro h0
        have hm : e ∈ usr df e.userId := mem_usr.mpr ⟨he, rfl⟩
        rw [h0] at hm
        cases hm
      rcases minTs_attained hne with ⟨x, hx, hxx⟩
      exact List.mem_map.mpr ⟨x, hx, hxx.symm⟩
    · intro x hx hux
      exact minTs_le (mem_usr.mpr ⟨hx, hux⟩)
  · intro h
    unfold obs_start
    rw [if_neg h]
    exact ⟨rfl, fun x hx => minTs_le hx⟩

/-- Witness for the amended C2 on the concrete dataset dfC2. -/
theorem C2_amended_obs_start_witness :
    eC2 ∈ dfC2 ∧
    ((eC2.registration > obsStartDefault dfC2 →
        obs_start dfC2 eC2 ∈ (usr dfC2 eC2.userId).map Event.ts ∧
          ∀ x ∈ dfC2, x.userId = eC2.userId → obs_start dfC2 eC2 ≤ x.ts) ∧
     (¬ eC2.registration > obsStartDefault dfC2 →
        obs_start dfC2 eC2 = obsStartDefault dfC2 ∧ ∀ x ∈ dfC2, obs_start dfC2 eC2 ≤ x.ts)) :=
  ⟨by decide, C2_amended_obs_start dfC2 eC2 (by decide)⟩

/-- C6: when the final recorded action of a user is the terminal action, the
observation end equals the timestamp of that final event; otherwise it is the
global maximum timestamp of the dataset (an upper bound of all timestamps). -/
theorem C6_obs_end (df : List Event) (u : String) (e : Event)
    (hlast : lastEvent (usr df u) = some e) :
    (e.page = "Cancellation Confirmation" → obs_end df u = e.ts) ∧
    (e.page ≠ "Cancellation Confirmation" →
      obs_end df u = obsEndDefault df ∧ ∀ x ∈ df, x.ts ≤ obsEndDefault df) := by
  have hend : end_state df u = e.page := by
    unfold end_state
    rw [hlast]
  constructor
  · intro h
    unfold obs_end
    rw [hend, if_pos h]
    exact (lastEvent_ts_eq_maxTs hlast).symm
  · intro h
    unfold obs_end
    rw [hend, if_neg h]
    exact ⟨rfl, fun x hx => le_maxTs hx⟩

/-- Witness for C6 on the concrete dataset dfC6: user u churns, so the window
ends at its final timestamp 100. -/
theorem C6_obs_end_witness :
    lastEvent (usr dfC6 "u") = some eC6 ∧
    ((eC6.page = "Cancellation Confirmation" → obs_end dfC6 "u" = eC6.ts) ∧
     (eC6.page ≠ "Cancellation Confirmation" →
       obs_end dfC6 "u" = obsEndDefault dfC6 ∧ ∀ x ∈ dfC6, x.ts ≤ obsEndDefault dfC6)) :=
  ⟨by decide, C6_obs_end dfC6 "u" eC6 (by decide)⟩

/-- C7: for a user with a positive observation window, every emitted
average-daily-rate feature equals the raw count of the matching action
(the number of rows whose page matches) divided by the window length. -/
theorem C7_daily_rates (df : List Event) (u : String) (row : FeatureRow)
    (hrow : (u, row) ∈ build_features df) (hpos : 0 < userObsDays df u) :
    row.avgDailySongs =
      (((usr df u).filter (fun e => e.page == "NextSong")).length : ℚ) / userObsDays df u ∧
    row.avgDailyThumbsUp =
      (((usr df u).filter (fun e => e.page == "Thumbs Up")).length : ℚ) / userObsDays df u ∧
    row.avgDailyThumbsDown =
      (((usr df u).filter (fun e => e.page == "Thumbs Down")).length : ℚ) / userObsDays df u ∧
    row.avgDailyUpgrade =
      (((usr df u).filter (fun e => e.page == "Upgrade" || e.page == "Submit Upgrade")).length : ℚ) /
        userObsDays df u ∧
    row.avgDailyDowngrade =
      (((usr df u).filter (fun e => e.page == "Downgrade" || e.page == "Submit Downgrade")).length : ℚ) /
        userObsDays df u ∧
    row.avgDailyAddFriend =
      (((usr df u).filter (fun e => e.page == "Add Friend")).length : ℚ) / userObsDays df u ∧
    row.avgDailyAddPlaylist =
      (((usr df u).filter (fun e => e.page == "Add to Playlist")).length : ℚ) / userObsDays df u ∧
    row.avgDailyAdvert =
      (((usr df u).filter (fun e => e.page == "Roll Advert")).length : ℚ) / userObsDays df u ∧
    row.avgDailyHelp =
      (((usr df u).filter (fun e => e.page == "Help")).length : ℚ) / userObsDays df u ∧
    row.avgDailyError =
      (((usr df u).filter (fun e => e.page == "Error")).length : ℚ) / userObsDays df u := by
  rcases List.mem_map.mp hrow with ⟨v, _, hveq⟩
  have h1 : v = u := congrArg Prod.fst hveq
  subst h1
  have h2 : row = buildRow df v := (congrArg Prod.snd hveq).symm
  subst h2
  simp [buildRow, countWhen_eq_length_filter]

/-- Evaluation helper: the observation window of user u in dfC7 is one day. -/
lemma userObsDays_dfC7 : userObsDays dfC7 "u" = 1 := by
  have h1 : obs_end dfC7 "u" = 86400000 := by decide
  have h2 : obs_start dfC7 ⟨"u", 0, 0, "NextSong", 1⟩ = 0 := by decide
  show ((obs_end dfC7 "u" : ℚ) - (obs_start dfC7 ⟨"u", 0, 0, "NextSong", 1⟩ : ℚ)) / 1000 / 3600 / 24 = 1
  rw [h1, h2]
  norm_num

/-- Witness for C7 on the one-day history dfC7. -/
theorem C7_daily_rates_witness :
    ("u", buildRow dfC7 "u") ∈ build_features dfC7 ∧ 0 < userObsDays dfC7 "u" ∧
      (buildRow dfC7 "u").avgDailySongs =
        (((usr dfC7 "u").filter (fun e => e.page == "NextSong")).length : ℚ) /
          userObsDays dfC7 "u" := by
  have hmem : ("u", buildRow dfC7 "u") ∈ build_features dfC7 := by
    simp [build_features, distinctUsers, distinct, dfC7]
  have hpos : 0 < userObsDays dfC7 "u" := by
    rw [userObsDays_dfC7]
    norm_num
  exact ⟨hmem, hpos, (C7_daily_rates dfC7 "u" (buildRow dfC7 "u") hmem hpos).1⟩

/-- C5: on a feature table whose high-correlation graph has no connected
component of size at least 2, the reducer raises the UnboundLocalError on the
never-assigned local cols_to_drop instead of returning the table. -/
theorem C5_unbound_local (t : Table) (corr : String → String → ℚ) (label : String)
    (thr : ℚ)
    (h : ∀ g ∈ components (adjacent corr thr) (colNames t), g.length < 2) :
    drop_multicollinear_features t corr label thr =
      Except.error "UnboundLocalError: local variable cols_to_drop referenced before assignment" := by
  apply drop_eq_error
  unfold redundantGroups
  apply List.filter_eq_nil_iff.mpr
  intro g hg
  simpa using Nat.not_le_of_lt (h g hg)

/-- Witness for C5 on the concrete table tableLow with no high correlation. -/
theorem C5_unbound_local_witness :
    (∀ g ∈ components (adjacent corrLow thr85) (colNames tableLow), g.length < 2) ∧
      drop_multicollinear_features tableLow corrLow "Churn" thr85 =
        Except.error "UnboundLocalError: local variable cols_to_drop referenced before assignment" :=
  ⟨by decide, C5_unbound_local tableLow corrLow "Churn" thr85 (by decide)⟩

/-- C4 evaluated at a concrete table: the first run on tableC4 drops column b
and returns outC4, and the second run on outC4 raises the UnboundLocalError
instead of returning outC4 unchanged, so the reducer is not idempotent. -/
theorem C4_second_run_raises :
    drop_multicollinear_features tableC4 corrC4 "Churn" thr85 = Except.ok outC4 ∧
    drop_multicollinear_features outC4 corrC4 "Churn" thr85 =
      Except.error "UnboundLocalError: local variable cols_to_drop referenced before assignment" := by
  decide

/-- C8: a column belonging to no redundant group is present, with its data
unchanged, in any table the reducer returns. -/
theorem C8_untouched_columns (t : Table) (corr : String → String → ℚ) (label : String)
    (thr : ℚ) (c : String) (d : List ℚ)
    (hng : ∀ g ∈ redundantGroups corr thr (colNames t), c ∉ g)
    (hmem : (c, d) ∈ t) (out : Table)
    (hok : drop_multicollinear_features t corr label thr = Except.ok out) :
    (c, d) ∈ out := by
  apply mem_out_of_not_dropped hmem ?_ hok
  intro hdrop
  rcases mem_cols_to_drop.mp hdrop with ⟨g, hg, hcg, _⟩
  exact hng g hg hcg

/-- Witness for C8 on tableC4: the label column is in no redundant group and
survives with its data. -/
theorem C8_untouched_columns_witness :
    (∀ g ∈ redundantGroups corrC4 thr85 (colNames tableC4), "Churn" ∉ g) ∧
      ("Churn", [1]) ∈ tableC4 ∧
      drop_multicollinear_features tableC4 corrC4 "Churn" thr85 = Except.ok outC4 ∧
      ("Churn", [1]) ∈ outC4 :=
  ⟨by decide, by decide, by decide,
    C8_untouched_columns tableC4 corrC4 "Churn" thr85 "Churn" [1] (by decide) (by decide)
      outC4 (by decide)⟩

/-- C3 counterexample: in tableC3 the single redundant group is [A, B]; the
absolute correlation of A with the label (0.2) strictly exceeds that of B
(0.1), yet the reducer keeps B and drops A, because pandas idxmax maximises
the signed correlation. -/
theorem C3_counterexample :
    redundantGroups corrC3 thr85 (colNames tableC3) = [["A", "B"]] ∧
      ratAbs (corrC3 "B" "Churn") < ratAbs (corrC3 "A" "Churn") ∧
      drop_multicollinear_features tableC3 corrC3 "Churn" thr85 =
        Except.ok [("B", [0]), ("Churn", [0])] := by
  decide

/-- C3 amended: whenever the reducer returns a table, then for every redundant
group it has retained exactly the feature of maximal signed correlation with
the label (the first such in group order) and removed every other feature of
the group; runs in which an earlier group removes the label column raise
KeyError at a later group instead and return no table. -/
theorem C3_amended_signed_max (t : Table) (corr : String → String → ℚ) (label : String)
    (thr : ℚ) (g : List String) (hg : g ∈ redundantGroups corr thr (colNames t))
    (out : Table) (hok : drop_multicollinear_features t corr label thr = Except.ok out) :
    col_to_keep corr label g ∈ g ∧
      (∀ c ∈ g, corr c label ≤ corr (col_to_keep corr label g) label) ∧
      col_to_keep corr label g ∈ colNames out ∧
      (∀ c ∈ g, c ≠ col_to_keep corr label g → c ∉ colNames out) := by
  have hne : g ≠ [] := by
    have h2 := redundantGroups_length hg
    intro h0
    rw [h0] at h2
    simp at h2
  have hkmem : col_to_keep corr label g ∈ g := col_to_keep_mem hne
  refine ⟨hkmem, fun c hc => col_to_keep_ge hc, ?_, ?_⟩
  · have hkcols : col_to_keep corr label g ∈ colNames t := redundantGroups_sub hg _ hkmem
    rcases exists_entry_of_mem_colNames hkcols with ⟨d, hd⟩
    have hnd := keep_not_in_drops corr label _ g
      (redundantGroups_disjoint corr thr (colNames t)) hg hkmem
    exact mem_colNames_of_mem (mem_out_of_not_dropped hd hnd hok)
  · intro c hc hcne
    have hdrop : c ∈ cols_to_drop corr label (redundantGroups corr thr (colNames t)) :=
      mem_cols_to_drop.mpr ⟨g, hg, hc, hcne⟩
    exact not_mem_out_of_dropped hdrop hok

/-- Witness for the amended C3 on tableC3, its group [A, B] and the concrete
table the reducer returns there. -/
theorem C3_amended_signed_max_witness :
    ["A", "B"] ∈ redundantGroups corrC3 thr85 (colNames tableC3) ∧
      drop_multicollinear_features tableC3 corrC3 "Churn" thr85 =
        Except.ok [("B", [0]), ("Churn", [0])] ∧
      (col_to_keep corrC3 "Churn" ["A", "B"] ∈ ["A", "B"] ∧
        (∀ c ∈ ["A", "B"], corrC3 c "Churn" ≤ corrC3 (col_to_keep corrC3 "Churn" ["A", "B"]) "Churn") ∧
        col_to_keep corrC3 "Churn" ["A", "B"] ∈ colNames [("B", [0]), ("Churn", [0])] ∧
        (∀ c ∈ ["A", "B"], c ≠ col_to_keep corrC3 "Churn" ["A", "B"] →
          c ∉ colNames [("B", [0]), ("Churn", [0])])) :=
  ⟨by decide, by decide,
    C3_amended_signed_max tableC3 corrC3 "Churn" thr85 ["A", "B"] (by decide)
      [("B", [0]), ("Churn", [0])] (by decide)⟩

/-- The KeyError path is reachable in the model, as in the source: on tableKey
the first group [X, Churn] keeps X (the idxmax tie at correlation 1 resolves
to the first position) and removes the label column Churn; the second group
[C, D] then looks up the dropped label column and the run raises KeyError
instead of returning a table. -/
lemma drop_keyError_reachable :
    redundantGroups corrKey thr85 (colNames tableKey) = [["X", "Churn"], ["C", "D"]] ∧
      drop_multicollinear_features tableKey corrKey "Churn" thr85 =
        Except.error "KeyError: Churn" := by
  decide

/-- C9 counterexample: in tableDup the feature X duplicates the label column,
every pairwise correlation is 1, and the reducer drops the label column Churn:
the branch removing the label is reachable. -/
theorem C9_counterexample :
    "Churn" ∈ colNames tableDup ∧
      drop_multicollinear_features tableDup corrDup "Churn" thr85 =
        Except.ok [("X", [0, 1])] ∧
      "Churn" ∉ colNames [("X", [0, 1])] := by
  decide

/-- C9 amended: whenever every non-label column has correlation with the label
strictly below the self-correlation of the label, the label column is never
removed: it is present in any table the reducer returns. -/
theorem C9_amended_label_kept (t : Table) (corr : String → String → ℚ) (label : String)
    (thr : ℚ)
    (hstrict : ∀ c ∈ colNames t, c ≠ label → corr c label < corr label label)
    (hlab : label ∈ colNames t) (out : Table)
    (hok : drop_multicollinear_features t corr label thr = Except.ok out) :
    label ∈ colNames out := by
  have hnd : label ∉ cols_to_drop corr label (redundantGroups corr thr (colNames t)) := by
    intro hdrop
    rcases mem_cols_to_drop.mp hdrop with ⟨g, hg, hlg, hlne⟩
    have hkg : col_to_keep corr label g ∈ g := col_to_keep_mem (by rintro rfl; cases hlg)
    have hkcols : col_to_keep corr label g ∈ colNames t := redundantGroups_sub hg _ hkg
    have hge : corr label label ≤ corr (col_to_keep corr label g) label := col_to_keep_ge hlg
    have hlt : corr (col_to_keep corr label g) label < corr label label :=
      hstrict _ hkcols (fun h => hlne h.symm)
    exact absurd hge (not_le_of_lt hlt)
  rcases exists_entry_of_mem_colNames hlab with ⟨d, hd⟩
  exact mem_colNames_of_mem (mem_out_of_not_dropped hd hnd hok)

/-- Witness for the amended C9 on tableC4, whose non-label correlations with
the label are 0.3 and 0.2, both below 1. -/
theorem C9_amended_label_kept_witness :
    (∀ c ∈ colNames tableC4, c ≠ "Churn" → corrC4 c "Churn" < corrC4 "Churn" "Churn") ∧
      "Churn" ∈ colNames tableC4 ∧
      drop_multicollinear_features tableC4 corrC4 "Churn" thr85 = Except.ok outC4 ∧
      "Churn" ∈ colNames outC4 :=
  ⟨by decide, by decide, by decide,
    C9_amended_label_kept tableC4 corrC4 "Churn" thr85 (by decide) (by decide) outC4 (by decide)⟩
